import Mathlib

/-!
# Verification of the TDataFrame core (tree/treeplayer/inc/ROOT/TDataFrame.hxx)

A shallow embedding of the deferred computation graph of `TDataFrame`:
filter chains with per-slot memoization and accepted/rejected counters
(`TDataFrameFilter::CheckFilters`), derived-column caching
(`TDataFrameBranch::GetValue`), the lazy booking interface
(`TDataFrameInterface::Count/Reduce/Take/Min/Max/Mean/Histo*` versus the
instant `Foreach`/`ForeachSlot`), result proxies (`TActionResultProxy::Get`
and `TriggerRun`), branch-name resolution (`GetBranchNames` and
`GetDefaultBranchNames`), and the Min/Max aggregation sentinels.

Machine doubles are modelled as rationals: the operations verified here
(comparisons, `max`, `min`) are exact on IEEE doubles, so the embedding is
faithful for them.  Entry numbers (`Long64_t entry`) are modelled as `Nat`
(the event loop only produces non-negative entries) and the per-slot
`fLastCheckedEntry` fields as `Int`, initialised to `-1` as in the source.
-/

namespace TDF

/-! ## Filter chains: `TDataFrameFilter` (TDataFrame.hxx lines 1221-1311)

`TDataFrameFilterBase` keeps, per slot, a last-checked entry (init `-1`),
a last result (init `true`), and accepted/rejected counters (init `0`).
The per-slot component of those vectors is modelled by `FilterSlotState`:
every access in `TDataFrameFilter::CheckFilters` indexes all four vectors
with the same `slot`, so the state of one slot evolves independently of
the others, exactly as captured here. -/

/-- Per-slot mutable state of one `TDataFrameFilter`: the `slot`-indexed
components of `fLastCheckedEntry`, `fLastResult`, `fAccepted`, `fRejected`. -/
structure FilterSlotState where
  fLastCheckedEntry : Int
  fLastResult : Bool
  fAccepted : Nat
  fRejected : Nat
deriving Repr, DecidableEq

/-- The per-slot initial state: member initialisers `{-1}`, `{true}`, `{0}`,
`{0}` of `TDataFrameFilterBase`. -/
def initFilterSlotState : FilterSlotState := ⟨-1, true, 0, 0⟩

instance : Inhabited FilterSlotState := ⟨initFilterSlotState⟩

/-- The immutable data of one `TDataFrameFilter`: its user predicate
(`fFilter`, applied to the declared column values of the entry; since the
columns are functions of the entry, the predicate is modelled as a function
of the entry) and its optional name. -/
structure FilterNode where
  pred : Nat → Bool
  name : String := ""

/-- Result of one `CheckFilters` call on a chain of filters: the returned
boolean, the updated per-slot states of every filter in the chain (nearest
filter first, root-most filter last), and, for the verification of the
at-most-once property, a flag per filter telling whether its user
predicate `fFilter` was invoked during this call. -/
structure CheckResult where
  result : Bool
  states : List FilterSlotState
  invoked : List Bool
deriving Repr, DecidableEq

/-- `TDataFrameFilter::CheckFilters(slot, entry)` (lines 1264-1279), for one
slot, on a chain of filters listed nearest-first (the head is the filter the
call is made on, the tail is its `fPrevData` chain).

```cpp
if (entry != fLastCheckedEntry[slot]) {
   if (!fPrevData.CheckFilters(slot, entry)) {
      fLastResult[slot] = false;
   } else {
      auto passed = CheckFilterHelper(..., slot, entry);
      passed ? ++fAccepted[slot] : ++fRejected[slot];
      fLastResult[slot] = passed;
   }
   fLastCheckedEntry[slot] = entry;
}
return fLastResult[slot];
```

The empty chain is the end of the recursion: `TDataFrameBranch` and
`TDataFrameAction` forward `CheckFilters` unchanged to their `fPrevData`, and
the root `TDataFrameImpl::CheckFilters` is modelled from the spec: the chain
root passes every row (its body lives in the implementation file, which is
not part of this source tree). -/
def checkFilters : List FilterNode → List FilterSlotState → Nat → CheckResult
  | [], _, _ => ⟨true, [], []⟩
  | _ :: _, [], _ => ⟨true, [], []⟩
  | f :: fs, s :: ss, e =>
    if (e : Int) = s.fLastCheckedEntry then
      ⟨s.fLastResult, s :: ss, false :: List.replicate fs.length false⟩
    else
      let pr := checkFilters fs ss e
      if pr.result then
        let passed := f.pred e
        ⟨passed,
         ⟨(e : Int), passed,
          s.fAccepted + (if passed then 1 else 0),
          s.fRejected + (if passed then 0 else 1)⟩ :: pr.states,
         true :: pr.invoked⟩
      else
        ⟨false, ⟨(e : Int), false, s.fAccepted, s.fRejected⟩ :: pr.states,
         false :: pr.invoked⟩

/-- Pure chain semantics of one fresh entry: the result of the filter chain
on entry `e` together with the list of filters whose predicate gets
evaluated (a filter evaluates its predicate exactly when its whole parent
chain passed).  This is the closed form of `checkFilters` on states that
have not seen entry `e` yet. -/
def chainEval : List FilterNode → Nat → Bool × List Bool
  | [], _ => (true, [])
  | f :: fs, e =>
    let pr := chainEval fs e
    if pr.1 then (f.pred e, true :: pr.2) else (false, false :: pr.2)

/-- The per-slot states of a chain after processing a fresh entry `e`:
every filter records `e` as last-checked; a filter whose parent chain
passed evaluates its predicate, stores the outcome and bumps the matching
counter, while a short-circuited filter memoizes `false` and leaves both
counters untouched. -/
def freshUpdate : List FilterNode → List FilterSlotState → Nat → List FilterSlotState
  | [], _, _ => []
  | _ :: _, [], _ => []
  | f :: fs, s :: ss, e =>
    (if (chainEval fs e).1 then
      ⟨(e : Int), f.pred e,
       s.fAccepted + (if f.pred e then 1 else 0),
       s.fRejected + (if f.pred e then 0 else 1)⟩
     else ⟨(e : Int), false, s.fAccepted, s.fRejected⟩) :: freshUpdate fs ss e

/-- A chain state is fresh for entry `e` when no filter in it has `e` as its
last-checked entry (in a run entries are processed in ascending order, so
every new entry finds the chain fresh). -/
def FreshFor (ss : List FilterSlotState) (e : Nat) : Prop :=
  ∀ s ∈ ss, (e : Int) ≠ s.fLastCheckedEntry

instance (ss : List FilterSlotState) (e : Nat) : Decidable (FreshFor ss e) := by
  unfold FreshFor; infer_instance

/-! ## Run model for the counters and the at-most-once property

During the event loop, each slot processes its entries in ascending order;
within one entry, every booked action consults the filter chain once (one
`CheckFilters` call per action).  `consult` models `n + 1` consecutive
`CheckFilters` calls for the same entry on the same slot, and `runEntries`
models a whole per-slot run: a list of `(entry, extraConsultations)` pairs
processed in order.  Both return the final per-slot states together with
the per-filter count of user-predicate invocations (indexed by the position
of the filter in the chain, nearest filter = position 0). -/

/-- Number of invocations (0 or 1) of the filter at position `j` recorded by
one `CheckFilters` call. -/
def boolCount (l : List Bool) (j : Nat) : Nat := if l.getD j false then 1 else 0

/-- `n + 1` consecutive `CheckFilters` calls for entry `e` on the same slot
(one per action consulting this chain). -/
def consult : List FilterNode → List FilterSlotState → Nat → Nat →
    List FilterSlotState × (Nat → Nat)
  | fs, ss, e, 0 =>
    let r := checkFilters fs ss e
    (r.states, boolCount r.invoked)
  | fs, ss, e, n + 1 =>
    let r := checkFilters fs ss e
    let rest := consult fs r.states e n
    (rest.1, fun j => boolCount r.invoked j + rest.2 j)

/-- One slot's full run: its entries in processing order, each with the
number of extra consultations beyond the first. -/
def runEntries : List FilterNode → List FilterSlotState → List (Nat × Nat) →
    List FilterSlotState × (Nat → Nat)
  | _, ss, [] => (ss, fun _ => 0)
  | fs, ss, (e, n) :: rest =>
    let c := consult fs ss e n
    let r := runEntries fs c.1 rest
    (r.1, fun j => c.2 j + r.2 j)

/-- Entry `e` reaches the filter at position `j` of the chain when the whole
parent chain (the filters at positions `> j`) passes it. -/
def reaches (fs : List FilterNode) (j : Nat) (e : Nat) : Bool :=
  (chainEval (fs.drop (j + 1)) e).1

/-- `fAccepted[slot] + fRejected[slot]` of the filter at position `j`. -/
def accPlusRej (ss : List FilterSlotState) (j : Nat) : Nat :=
  (ss.getD j initFilterSlotState).fAccepted + (ss.getD j initFilterSlotState).fRejected

/-- The per-slot states of a chain of `n` filters before the event loop. -/
def initStates (n : Nat) : List FilterSlotState := List.replicate n initFilterSlotState

/-! ## Derived columns: `TDataFrameBranch` (TDataFrame.hxx lines 1142-1219)

Per slot, a temporary branch keeps the last-checked entry
(`fLastCheckedEntry`, init `-1`) and a `shared_ptr` to the last computed
value (`fLastResultPtr`).  `GetValueHelper` evaluates `fExpression` on the
branch values of the entry and wraps the result in a fresh `make_shared`
allocation; the allocation is modelled by a pair (address, pointee) drawn
from a per-slot address counter, so that pointer identity is observable. -/

/-- Per-slot state of one `TDataFrameBranch`: the `slot`-indexed components
of `fLastCheckedEntry` and `fLastResultPtr`, plus the allocator counter
that models `make_shared` returning a fresh address on every evaluation. -/
structure BranchSlotState (V : Type) where
  fLastCheckedEntry : Int
  fLastResultPtr : Option (Nat × V)
  nextAddr : Nat
deriving Repr, DecidableEq

/-- The per-slot initial state of a temporary branch: `fLastCheckedEntry`
init `-1` (member initialiser and `CreateSlots` resize), null result
pointer. -/
def initBranchSlotState (V : Type) : BranchSlotState V := ⟨-1, none, 0⟩

/-- `TDataFrameBranch::GetValue(slot, entry)` (lines 1171-1180) for one slot:

```cpp
if (entry != fLastCheckedEntry[slot]) {
   auto newValuePtr = GetValueHelper(..., slot, entry);
   fLastResultPtr[slot] = newValuePtr;
   fLastCheckedEntry[slot] = entry;
}
return static_cast<void *>(fLastResultPtr[slot].get());
```

Returns the pointer handed to the consumer, the updated state, and whether
`fExpression` was evaluated during the call.  The expression is pure
(spec section 4.3), so it is modelled as a function of the entry. -/
def branchGetValue {V : Type} (expression : Nat → V) (s : BranchSlotState V) (e : Nat) :
    Option (Nat × V) × BranchSlotState V × Bool :=
  if (e : Int) = s.fLastCheckedEntry then (s.fLastResultPtr, s, false)
  else
    let p := (s.nextAddr, expression e)
    (some p, ⟨(e : Int), some p, s.nextAddr + 1⟩, true)

/-! ## The booking interface: lazy versus instant actions
(TDataFrame.hxx lines 441-556 and 793-842)

Every lazy action (`Count`, `Reduce`, `Take`, `Min`, `Max`, `Mean`,
`Histo1D/2D/3D`) performs the same external steps: create the shared result
object, register a readiness flag (`MakeActionResultProxy`), and append the
typed action to the engine (`TDataFrameImpl::Book`).  `ForeachSlot`
additionally calls `df->Run()` inside the booking call, and `Foreach`
forwards to `ForeachSlot`.  Column reads and user-callable invocations
happen only inside the event loop (`TDataFrameImpl::Run`), so an effect
trace without `runLoop` performs no source I/O and invokes no user
callable. -/

/-- Externally visible effects of a booking call on the engine. -/
inductive EngineEffect where
  /-- `TDataFrameImpl::Book(...)`: append the node to the booked list. -/
  | bookAction
  /-- `TDataFrameImpl::Run()`: the event loop, the only place where columns
  are read and user callables are invoked. -/
  | runLoop
deriving Repr, DecidableEq

/-- The booking-relevant engine state: counts of booked actions, registered
readiness flags (`fResProxyReadiness`), and event loops run. -/
structure EngineState where
  nBookedActions : Nat
  nReadinessFlags : Nat
  nRuns : Nat
deriving Repr, DecidableEq

/-- `TDataFrameImpl::MakeActionResultProxy` (lines 1347-1355): create a
readiness flag, register it in `fResProxyReadiness`, wrap the result. -/
def makeActionResultProxy (st : EngineState) : EngineState :=
  { st with nReadinessFlags := st.nReadinessFlags + 1 }

/-- `TDataFrameImpl::Book` on an action: append to `fBookedActions`. -/
def bookOnEngine (st : EngineState) : EngineState × List EngineEffect :=
  ({ st with nBookedActions := st.nBookedActions + 1 }, [.bookAction])

/-- `TDataFrameImpl::Run`: one execution of the event loop. -/
def runOnEngine (st : EngineState) : EngineState × List EngineEffect :=
  ({ st with nRuns := st.nRuns + 1 }, [.runLoop])

/-- `TDataFrameInterface::Count` (lines 543-556): make the shared counter,
make the result proxy, book the counting action.  No event loop. -/
def bookCount (st : EngineState) : EngineState × List EngineEffect :=
  bookOnEngine (makeActionResultProxy st)

/-- `TDataFrameInterface::Reduce` (lines 520-536): check the callable, make
the shared result, make the proxy, book the reducing action. -/
def bookReduce (st : EngineState) : EngineState × List EngineEffect :=
  bookOnEngine (makeActionResultProxy st)

/-- `TDataFrameInterface::Take` (lines 566-579): make the shared collection,
make the proxy, book the collecting action. -/
def bookTake (st : EngineState) : EngineState × List EngineEffect :=
  bookOnEngine (makeActionResultProxy st)

/-- `TDataFrameInterface::Min` via `CreateAction`/`BuildAndBook`
(lines 802-808 and 967-979): book the action, then make the proxy. -/
def bookMin (st : EngineState) : EngineState × List EngineEffect :=
  let b := bookOnEngine st
  (makeActionResultProxy b.1, b.2)

/-- `TDataFrameInterface::Max` via `CreateAction`/`BuildAndBook`
(lines 819-825 and 981-993): book the action, then make the proxy. -/
def bookMax (st : EngineState) : EngineState × List EngineEffect :=
  let b := bookOnEngine st
  (makeActionResultProxy b.1, b.2)

/-- `TDataFrameInterface::Mean` via `CreateAction`/`BuildAndBook`
(lines 836-842 and 996-1008): book the action, then make the proxy. -/
def bookMean (st : EngineState) : EngineState × List EngineEffect :=
  let b := bookOnEngine st
  (makeActionResultProxy b.1, b.2)

/-- `TDataFrameInterface::Histo1D` via `Histo1DImpl`/`BuildAndBook`
(lines 594-653 and 941-965): book the filling action, make the proxy. -/
def bookHisto1D (st : EngineState) : EngineState × List EngineEffect :=
  let b := bookOnEngine st
  (makeActionResultProxy b.1, b.2)

/-- `TDataFrameInterface::Histo2D` (lines 668-718): book the filling
action, make the proxy. -/
def bookHisto2D (st : EngineState) : EngineState × List EngineEffect :=
  let b := bookOnEngine st
  (makeActionResultProxy b.1, b.2)

/-- `TDataFrameInterface::Histo3D` (lines 735-791): book the filling
action, make the proxy. -/
def bookHisto3D (st : EngineState) : EngineState × List EngineEffect :=
  let b := bookOnEngine st
  (makeActionResultProxy b.1, b.2)

/-- `TDataFrameInterface::ForeachSlot` (lines 475-484): book the action and
then call `df->Run()` inside the booking call itself. -/
def foreachSlot (st : EngineState) : EngineState × List EngineEffect :=
  let b := bookOnEngine st
  let r := runOnEngine b.1
  (r.1, b.2 ++ r.2)

/-- `TDataFrameInterface::Foreach` (lines 451-458): wrap the callable with a
slot parameter and forward to `ForeachSlot`. -/
def foreach (st : EngineState) : EngineState × List EngineEffect :=
  foreachSlot st

/-- A booking operation is lazy when, on every engine state, it only books
the action and registers a result-handle readiness flag: its effect trace
is exactly one `Book` call — in particular the event loop is not triggered,
so no column is read and no user callable is invoked by the booking. -/
def LazyBooking (op : EngineState → EngineState × List EngineEffect) : Prop :=
  ∀ st : EngineState,
    (op st).2 = [EngineEffect.bookAction]
      ∧ EngineEffect.runLoop ∉ (op st).2
      ∧ (op st).1 = { st with nBookedActions := st.nBookedActions + 1,
                              nReadinessFlags := st.nReadinessFlags + 1 }

/-! ## Errors, result proxies and reporting -/

/-- The error kinds the embedded operations can surface. -/
inductive TDFError where
  /-- The main `TDataFrame` went out of scope (`"The main TDataFrame is not
  reachable: did it go out of scope?"`). -/
  | engineGone
  /-- Reporting before any event loop ran (named by the spec; the source
  never raises it — see the Report theorems). -/
  | notRun
  /-- The default branch list is shorter than the needed arity (`"... Please
  specify the branches explicitly."`). -/
  | insufficientDefaults
deriving Repr, DecidableEq

/-- What the event loop publishes for one proxy, as far as `Get` is
concerned.  Modelled from the spec (section 4.6): `TDataFrameImpl::Run`
(whose body is in the implementation file, not under this source tree)
populates the aggregate and raises the readiness flag. -/
structure EngineRunModel where
  computed : Int
deriving Repr, DecidableEq

/-- The state of one `TActionResultProxy`: the readiness flag
(`fReadiness`), the current contents of the `fObjPtr` target, and the
result of locking the weak pointer `fFirstData` (`none` when the
`TDataFrameImpl` has been destroyed). -/
structure ResultProxy where
  fReadiness : Bool
  fObj : Int
  fFirstData : Option EngineRunModel
deriving Repr, DecidableEq

/-- `TActionResultProxy::TriggerRun` (lines 1371-1379): lock the weak
pointer; throw if the data frame is gone, otherwise `df->Run()` (modelled
from the spec: the run populates the aggregate and sets readiness). -/
def triggerRun (p : ResultProxy) : Except TDFError ResultProxy :=
  match p.fFirstData with
  | none => .error .engineGone
  | some eng => .ok { p with fReadiness := true, fObj := eng.computed }

/-- `TActionResultProxy::Get` (lines 100-104):

```cpp
if (!*fReadiness) TriggerRun();
return fObjPtr.get();
```

Returns the value handed to the caller, the updated proxy, and whether the
event loop was triggered by this call. -/
def proxyGet (p : ResultProxy) : Except TDFError (Int × ResultProxy × Bool) :=
  if p.fReadiness then .ok (p.fObj, p, false)
  else (triggerRun p).map fun p' => (p'.fObj, p', true)

/-- Outcome of `TDataFrameInterface::Report`. -/
inductive ReportOutcome where
  /-- An error reaching the caller (the spec's `NotRun`); listed so the
  spec's claim is statable — the source never produces it before a run. -/
  | raisedError
  /-- `Info("TDataFrame::Report", "Warning: the event-loop has not been run
  yet, all reports are empty")`. -/
  | warnedEmpty
  /-- `fProxiedPtr->Report()`: the per-filter statistics are printed. -/
  | printedStats
deriving Repr, DecidableEq

/-- `TDataFrameInterface::Report` (lines 853-859):

```cpp
auto df = GetDataFrameChecked();
if (!df->HasRunAtLeastOnce())
   Info("TDataFrame::Report", "Warning: the event-loop has not been run yet, all reports are empty");
else
   fProxiedPtr->Report();
```

`GetDataFrameChecked` throws when the main data frame is unreachable. -/
def reportTDF (engineReachable hasRunAtLeastOnce : Bool) : Except TDFError ReportOutcome :=
  if !engineReachable then .error .engineGone
  else if !hasRunAtLeastOnce then .ok .warnedEmpty
  else .ok .printedStats

/-! ## Branch-name resolution (TDataFrame.hxx lines 864-904 and 1085-1103) -/

/-- `TDataFrameInterface::GetDefaultBranchNames` (lines 1085-1103): if more
branches are expected than the default list holds, throw; otherwise return
the first `nExpectedBranches` defaults. -/
def getDefaultBranchNames (defaultBranches : List String) (nExpectedBranches : Nat) :
    Except TDFError (List String) :=
  if nExpectedBranches > defaultBranches.length then .error .insufficientDefaults
  else .ok (defaultBranches.take nExpectedBranches)

/-- `TDataFrameInterface::GetBranchNames` (lines 864-904): count the
non-empty entries of `bl`; if exactly the needed number is provided return
`bl` as given, otherwise fall back to the default list. -/
def getBranchNames (defaultBranches : List String) (bl : List String) (neededBranches : Nat) :
    Except TDFError (List String) :=
  let providedBranches := (bl.filter fun s => !s.isEmpty).length
  if neededBranches = providedBranches then .ok bl
  else getDefaultBranchNames defaultBranches neededBranches

/-! ## Min/Max aggregation

Doubles are modelled as rationals (`max`/`min` on IEEE doubles are exact
comparisons).  The initial values of the published aggregates come from the
source: `Min` seeds its shared double with `std::numeric_limits<double>::max()`
(line 806) and `Max` seeds its shared double with
`std::numeric_limits<double>::min()` (line 823) — the latter is the
*smallest positive normal* double, not the most negative one. -/

/-- `std::numeric_limits<double>::max()`: the largest finite double. -/
def dblMax : ℚ := (2 - (2 : ℚ) ^ (-52 : ℤ)) * 2 ^ (1023 : ℕ)

/-- `std::numeric_limits<double>::min()`: the smallest positive normal
double, `2^-1022`. -/
def dblMin : ℚ := (2 : ℚ) ^ (-1022 : ℤ)

/-- Modelled from the spec (section 4.5 table): the per-slot partial of
`Max` is a running double maximum over the values the slot processed, and
the merge rule folds the slot partials by `max` into the published double,
which `TDataFrameInterface::Max` initialised to
`std::numeric_limits<double>::min()` (line 823).  `slotValues` lists, per
slot, the branch values that reached the action. -/
def maxResult (slotValues : List (List ℚ)) : ℚ :=
  ((slotValues.map fun vs => vs.foldl max dblMin).foldl max dblMin)

/-- Modelled from the spec (section 4.5 table): the per-slot partial of
`Min` is a running double minimum, merged by `min` into the published
double, which `TDataFrameInterface::Min` initialised to
`std::numeric_limits<double>::max()` (line 806). -/
def minResult (slotValues : List (List ℚ)) : ℚ :=
  ((slotValues.map fun vs => vs.foldl min dblMax).foldl min dblMax)

/-! ## Lemmas on filter chains -/

theorem checkFilters_nil (ss : List FilterSlotState) (e : Nat) :
    checkFilters [] ss e = ⟨true, [], []⟩ := by
  cases ss <;> rfl

theorem checkFilters_memoHit (f : FilterNode) (fs : List FilterNode) (s : FilterSlotState)
    (ss : List FilterSlotState) (e : Nat) (h : (e : Int) = s.fLastCheckedEntry) :
    checkFilters (f :: fs) (s :: ss) e
      = ⟨s.fLastResult, s :: ss, false :: List.replicate fs.length false⟩ := by
  simp [checkFilters, h]

theorem chainEval_flags_length (fs : List FilterNode) (e : Nat) :
    (chainEval fs e).2.length = fs.length := by
  induction fs with
  | nil => rfl
  | cons f fs ih =>
    simp only [chainEval]
    by_cases h : (chainEval fs e).1 <;> simp [h, ih]

theorem checkFilters_fresh (fs : List FilterNode) :
    ∀ (ss : List FilterSlotState) (e : Nat), ss.length = fs.length → FreshFor ss e →
      checkFilters fs ss e = ⟨(chainEval fs e).1, freshUpdate fs ss e, (chainEval fs e).2⟩ := by
  induction fs with
  | nil =>
    intro ss e hlen _
    cases ss with
    | nil => rfl
    | cons s ss => simp at hlen
  | cons f fs ih =>
    intro ss e hlen hfresh
    cases ss with
    | nil => simp at hlen
    | cons s ss =>
      have hne : (e : Int) ≠ s.fLastCheckedEntry := hfresh s (by simp)
      have hlen' : ss.length = fs.length := by simpa using hlen
      have hfresh' : FreshFor ss e := fun x hx => hfresh x (by simp [hx])
      simp only [checkFilters, if_neg hne, ih ss e hlen' hfresh']
      simp only [chainEval, freshUpdate]
      by_cases hp : (chainEval fs e).1 <;> simp [hp]

theorem freshUpdate_length (fs : List FilterNode) :
    ∀ (ss : List FilterSlotState) (e : Nat), ss.length = fs.length →
      (freshUpdate fs ss e).length = fs.length := by
  induction fs with
  | nil => intro ss e _; cases ss <;> rfl
  | cons f fs ih =>
    intro ss e hlen
    cases ss with
    | nil => simp at hlen
    | cons s ss => simp [freshUpdate, ih ss e (by simpa using hlen)]

theorem freshUpdate_lastChecked (fs : List FilterNode) :
    ∀ (ss : List FilterSlotState) (e : Nat), ∀ s' ∈ freshUpdate fs ss e,
      s'.fLastCheckedEntry = (e : Int) := by
  induction fs with
  | nil => intro ss e s' h; cases ss <;> simp [freshUpdate] at h
  | cons f fs ih =>
    intro ss e s' h
    cases ss with
    | nil => simp [freshUpdate] at h
    | cons s ss =>
      simp only [freshUpdate, List.mem_cons] at h
      rcases h with h | h
      · subst h; by_cases hp : (chainEval fs e).1 <;> simp [hp]
      · exact ih ss e s' h

theorem freshUpdate_accPlusRej (fs : List FilterNode) :
    ∀ (ss : List FilterSlotState) (e : Nat) (j : Nat), ss.length = fs.length → j < fs.length →
      accPlusRej (freshUpdate fs ss e) j
        = accPlusRej ss j + (if reaches fs j e then 1 else 0) := by
  induction fs with
  | nil => intro ss e j _ hj; simp at hj
  | cons f fs ih =>
    intro ss e j hlen hj
    cases ss with
    | nil => simp at hlen
    | cons s ss =>
      cases j with
      | zero =>
        simp only [freshUpdate, accPlusRej, reaches, List.drop_succ_cons, List.drop_zero,
          List.getD_cons_zero]
        by_cases hp : (chainEval fs e).1 <;>
          by_cases hq : f.pred e <;> simp [hp, hq] <;> omega
      | succ j =>
        have hlen' : ss.length = fs.length := by simpa using hlen
        have hj' : j < fs.length := by simpa using hj
        simp only [freshUpdate, accPlusRej, reaches, List.drop_succ_cons, List.getD_cons_succ]
        have := ih ss e j hlen' hj'
        simpa [accPlusRej, reaches] using this

theorem checkFilters_synced (fs : List FilterNode) (ss : List FilterSlotState) (e : Nat)
    (hlen : ss.length = fs.length) (hsync : ∀ s ∈ ss, s.fLastCheckedEntry = (e : Int)) :
    (checkFilters fs ss e).states = ss
      ∧ (checkFilters fs ss e).invoked = List.replicate fs.length false := by
  cases fs with
  | nil => cases ss with
    | nil => exact ⟨rfl, rfl⟩
    | cons s ss => simp at hlen
  | cons f fs => cases ss with
    | nil => simp at hlen
    | cons s ss =>
      rw [checkFilters_memoHit f fs s ss e ((hsync s (by simp)).symm)]
      simp [List.replicate_succ]

theorem getD_replicate_false (k : Nat) : ∀ (j : Nat),
    (List.replicate k false).getD j false = false := by
  induction k with
  | zero => intro j; simp
  | succ k ih => intro j; cases j <;> simp [List.replicate_succ, ih]

theorem boolCount_le_one (l : List Bool) (j : Nat) : boolCount l j ≤ 1 := by
  unfold boolCount; split <;> simp

theorem boolCount_replicate (k j : Nat) : boolCount (List.replicate k false) j = 0 := by
  simp [boolCount, getD_replicate_false]

theorem consult_synced (n : Nat) :
    ∀ (fs : List FilterNode) (ss : List FilterSlotState) (e : Nat),
      ss.length = fs.length → (∀ s ∈ ss, s.fLastCheckedEntry = (e : Int)) →
      (consult fs ss e n).1 = ss ∧ ∀ j, (consult fs ss e n).2 j = 0 := by
  induction n with
  | zero =>
    intro fs ss e hlen hsync
    obtain ⟨hst, hinv⟩ := checkFilters_synced fs ss e hlen hsync
    exact ⟨hst, fun j => by simp [consult, hst, hinv, boolCount_replicate]⟩
  | succ n ih =>
    intro fs ss e hlen hsync
    obtain ⟨hst, hinv⟩ := checkFilters_synced fs ss e hlen hsync
    obtain ⟨hst', hc'⟩ := ih fs ss e hlen hsync
    constructor
    · simp only [consult, hst]; exact hst'
    · intro j
      simp only [consult, hst, hinv]
      simp [boolCount_replicate, hc' j]

theorem consult_fresh (n : Nat) (fs : List FilterNode) (ss : List FilterSlotState) (e : Nat)
    (hlen : ss.length = fs.length) (hfresh : FreshFor ss e) :
    (consult fs ss e n).1 = freshUpdate fs ss e
      ∧ ∀ j, (consult fs ss e n).2 j = boolCount (chainEval fs e).2 j := by
  have hcf := checkFilters_fresh fs ss e hlen hfresh
  cases n with
  | zero => exact ⟨by simp [consult, hcf], fun j => by simp [consult, hcf]⟩
  | succ n =>
    have hlen' : (freshUpdate fs ss e).length = fs.length := freshUpdate_length fs ss e hlen
    have hsync : ∀ s ∈ freshUpdate fs ss e, s.fLastCheckedEntry = (e : Int) :=
      freshUpdate_lastChecked fs ss e
    obtain ⟨hst, hc⟩ := consult_synced n fs (freshUpdate fs ss e) e hlen' hsync
    constructor
    · simp only [consult, hcf]; exact hst
    · intro j
      simp only [consult, hcf]
      simp [hc j]

theorem chainEval_flag_getD (fs : List FilterNode) (e : Nat) :
    ∀ (j : Nat), j < fs.length → (chainEval fs e).2.getD j false = reaches fs j e := by
  induction fs with
  | nil => intro j hj; simp at hj
  | cons f fs ih =>
    intro j hj
    cases j with
    | zero =>
      simp only [reaches, List.drop_succ_cons, List.drop_zero, chainEval]
      by_cases hp : (chainEval fs e).1 <;> simp [hp]
    | succ j =>
      have hj' : j < fs.length := by simpa using hj
      simp only [reaches, List.drop_succ_cons, chainEval]
      have := ih j hj'
      by_cases hp : (chainEval fs e).1 <;> simpa [hp, reaches] using this

theorem boolCount_chainEval (fs : List FilterNode) (e : Nat) (j : Nat) (hj : j < fs.length) :
    boolCount (chainEval fs e).2 j = if reaches fs j e then 1 else 0 := by
  simp only [boolCount]
  rw [chainEval_flag_getD fs e j hj]

theorem runEntries_spec (fs : List FilterNode) :
    ∀ (entries : List (Nat × Nat)) (ss : List FilterSlotState),
      ss.length = fs.length →
      (∀ s ∈ ss, ∀ en ∈ entries, s.fLastCheckedEntry < (en.1 : Int)) →
      entries.Pairwise (fun a b => a.1 < b.1) →
      (runEntries fs ss entries).1.length = fs.length
        ∧ (∀ j, j < fs.length →
            accPlusRej (runEntries fs ss entries).1 j
              = accPlusRej ss j + (entries.filter fun en => reaches fs j en.1).length)
        ∧ (∀ j, j < fs.length →
            (runEntries fs ss entries).2 j
              = (entries.filter fun en => reaches fs j en.1).length) := by
  intro entries
  induction entries with
  | nil =>
    intro ss hlen _ _
    exact ⟨hlen, fun j _ => by simp [runEntries], fun j _ => by simp [runEntries]⟩
  | cons en rest ih =>
    intro ss hlen hlt hpw
    obtain ⟨e, n⟩ := en
    have hfresh : FreshFor ss e := by
      intro s hs
      have := hlt s hs (e, n) (by simp)
      omega
    obtain ⟨hcst, hcc⟩ := consult_fresh n fs ss e hlen hfresh
    have hulen : (freshUpdate fs ss e).length = fs.length := freshUpdate_length fs ss e hlen
    have hult : ∀ s ∈ freshUpdate fs ss e, ∀ en' ∈ rest, s.fLastCheckedEntry < (en'.1 : Int) := by
      intro s hs en' hen'
      rw [freshUpdate_lastChecked fs ss e s hs]
      exact_mod_cast (List.pairwise_cons.mp hpw).1 en' hen'
    have hpw' : rest.Pairwise (fun a b => a.1 < b.1) := (List.pairwise_cons.mp hpw).2
    obtain ⟨ihlen, ihacc, ihcnt⟩ := ih (freshUpdate fs ss e) hulen hult hpw'
    refine ⟨?_, ?_, ?_⟩
    · simp only [runEntries, hcst]; exact ihlen
    · intro j hj
      simp only [runEntries, hcst]
      rw [ihacc j hj, freshUpdate_accPlusRej fs ss e j hlen hj, List.filter_cons]
      by_cases hr : reaches fs j e
      · simp [hr]; omega
      · simp [hr]
    · intro j hj
      simp only [runEntries, hcst]
      rw [hcc j, ihcnt j hj, boolCount_chainEval fs e j hj, List.filter_cons]
      by_cases hr : reaches fs j e
      · simp [hr]; omega
      · simp [hr]

theorem getD_replicate_init (n : Nat) : ∀ (j : Nat),
    (List.replicate n initFilterSlotState).getD j initFilterSlotState = initFilterSlotState := by
  induction n with
  | zero => intro j; simp
  | succ n ih => intro j; cases j <;> simp [List.replicate_succ, ih]

theorem accPlusRej_initStates (n j : Nat) : accPlusRej (initStates n) j = 0 := by
  simp [accPlusRej, initStates, getD_replicate_init, initFilterSlotState]

/-! ## Claim theorems -/

/-- C2. For every Filter node, every slot and every row, `CheckFilters` on a
row equal to the slot's last-examined row returns the memoized last result
with no state change and no predicate invocation anywhere in the chain
(first conjunct); consequently, however many downstream actions consult the
chain for the same (slot, row) — `n + 1` consultations — each filter's user
predicate is invoked at most once for that (slot, row) (second conjunct). -/
theorem c2_filter_memoization :
    (∀ (f : FilterNode) (fs : List FilterNode) (s : FilterSlotState)
        (ss : List FilterSlotState) (e : Nat),
        (e : Int) = s.fLastCheckedEntry →
        checkFilters (f :: fs) (s :: ss) e
          = ⟨s.fLastResult, s :: ss, false :: List.replicate fs.length false⟩)
    ∧ (∀ (fs : List FilterNode) (ss : List FilterSlotState) (e n j : Nat),
        ss.length = fs.length → FreshFor ss e →
        (consult fs ss e n).2 j ≤ 1) := by
  constructor
  · exact fun f fs s ss e h => checkFilters_memoHit f fs s ss e h
  · intro fs ss e n j hlen hfresh
    rw [(consult_fresh n fs ss e hlen hfresh).2 j]
    exact boolCount_le_one _ j

/-- C2 witness: a memoized hit returns the cached `false` unchanged, and a
single filter consulted six times for the same fresh row is invoked at most
once. -/
theorem c2_witness :
    checkFilters [⟨fun e => decide (e % 2 = 0), "even"⟩] [⟨3, false, 1, 2⟩] 3
        = ⟨false, [⟨3, false, 1, 2⟩], [false]⟩
      ∧ (consult [⟨fun e => decide (e % 2 = 0), "even"⟩] [initFilterSlotState] 4 5).2 0 ≤ 1 := by
  constructor
  · exact c2_filter_memoization.1 ⟨fun e => decide (e % 2 = 0), "even"⟩ [] ⟨3, false, 1, 2⟩ [] 3
      (by decide)
  · exact c2_filter_memoization.2 [⟨fun e => decide (e % 2 = 0), "even"⟩] [initFilterSlotState]
      4 5 0 (by decide) (by decide)

/-- C3. Short-circuit: in a chain `pre ++ suf` (nearest filter first, so the
filters of `suf` are upstream of those of `pre`), when the upstream part
returns `false` for a row none of the downstream filters has examined yet,
no downstream filter's user predicate is invoked for that (slot, row): the
whole call returns `false`, every downstream filter memoizes `false` for
that row, and its accepted/rejected counters are untouched. -/
theorem c3_short_circuit :
    ∀ (pre suf : List FilterNode) (ssp sss : List FilterSlotState) (e : Nat),
      ssp.length = pre.length → FreshFor ssp e →
      (checkFilters suf sss e).result = false →
      (checkFilters (pre ++ suf) (ssp ++ sss) e).result = false
        ∧ (∀ j, j < pre.length →
            (checkFilters (pre ++ suf) (ssp ++ sss) e).invoked.getD j false = false)
        ∧ (∀ j, j < pre.length →
            (checkFilters (pre ++ suf) (ssp ++ sss) e).states.getD j initFilterSlotState
              = ⟨(e : Int), false, (ssp.getD j initFilterSlotState).fAccepted,
                 (ssp.getD j initFilterSlotState).fRejected⟩) := by
  intro pre
  induction pre with
  | nil =>
    intro suf ssp sss e hlen _ hfalse
    cases ssp with
    | nil => exact ⟨hfalse, fun j hj => by simp at hj, fun j hj => by simp at hj⟩
    | cons s ssp => simp at hlen
  | cons f pre ih =>
    intro suf ssp sss e hlen hfresh hfalse
    cases ssp with
    | nil => simp at hlen
    | cons s ssp =>
      have hne : (e : Int) ≠ s.fLastCheckedEntry := hfresh s (by simp)
      have hlen' : ssp.length = pre.length := by simpa using hlen
      have hfresh' : FreshFor ssp e := fun x hx => hfresh x (by simp [hx])
      obtain ⟨hres, hinv, hsts⟩ := ih suf ssp sss e hlen' hfresh' hfalse
      have hstep :
          checkFilters (f :: (pre ++ suf)) (s :: (ssp ++ sss)) e
            = ⟨false,
               ⟨(e : Int), false, s.fAccepted, s.fRejected⟩
                 :: (checkFilters (pre ++ suf) (ssp ++ sss) e).states,
               false :: (checkFilters (pre ++ suf) (ssp ++ sss) e).invoked⟩ := by
        simp only [checkFilters, if_neg hne]
        simp [hres]
      simp only [List.cons_append]
      refine ⟨by simp [hstep], ?_, ?_⟩
      · intro j hj
        cases j with
        | zero => simp [hstep]
        | succ j => simpa [hstep] using hinv j (by simpa using hj)
      · intro j hj
        cases j with
        | zero => simp [hstep]
        | succ j => simpa [hstep] using hsts j (by simpa using hj)

/-- C3 witness: with upstream filter `x > 5` (false at row 3) and a fresh
downstream filter, the downstream predicate is not invoked at row 3, the
call returns false, and the downstream filter memoizes false with counters
unchanged. -/
theorem c3_witness :
    (checkFilters [⟨fun e => decide (5 < e), "big"⟩] [initFilterSlotState] 3).result = false
      ∧ (checkFilters ([⟨fun e => decide (e % 2 = 0), "even"⟩] ++ [⟨fun e => decide (5 < e), "big"⟩])
          ([initFilterSlotState] ++ [initFilterSlotState]) 3).result = false
      ∧ (checkFilters ([⟨fun e => decide (e % 2 = 0), "even"⟩] ++ [⟨fun e => decide (5 < e), "big"⟩])
          ([initFilterSlotState] ++ [initFilterSlotState]) 3).invoked.getD 0 false = false
      ∧ (checkFilters ([⟨fun e => decide (e % 2 = 0), "even"⟩] ++ [⟨fun e => decide (5 < e), "big"⟩])
          ([initFilterSlotState] ++ [initFilterSlotState]) 3).states.getD 0 initFilterSlotState
          = ⟨(3 : Int), false, 0, 0⟩ := by
  have h := c3_short_circuit [⟨fun e => decide (e % 2 = 0), "even"⟩]
    [⟨fun e => decide (5 < e), "big"⟩] [initFilterSlotState] [initFilterSlotState] 3
    (by decide) (by decide) (by decide)
  exact ⟨by decide, h.1, h.2.1 0 (by decide), by
    have := h.2.2 0 (by decide)
    simpa [initFilterSlotState] using this⟩

/-- C9. For every filter position `j` in a chain, after a per-slot run over
ascending entries (each consulted once per booked action), the slot's
`fAccepted + fRejected` equals the number of that filter's own predicate
invocations during the run, which equals the number of distinct rows that
reached the filter (rows short-circuited upstream increment neither
counter); and summing over slots, the counters total the rows that reached
the filter across the whole input (first and second parts). -/
theorem c9_named_filter_counters :
    (∀ (fs : List FilterNode) (entries : List (Nat × Nat)),
        entries.Pairwise (fun a b => a.1 < b.1) →
        ∀ j, j < fs.length →
          accPlusRej (runEntries fs (initStates fs.length) entries).1 j
              = (runEntries fs (initStates fs.length) entries).2 j
            ∧ (runEntries fs (initStates fs.length) entries).2 j
              = (entries.filter fun en => reaches fs j en.1).length)
    ∧ (∀ (fs : List FilterNode) (slotRuns : List (List (Nat × Nat))),
        (∀ es ∈ slotRuns, es.Pairwise (fun a b => a.1 < b.1)) →
        ∀ j, j < fs.length →
          (slotRuns.map fun es =>
              accPlusRej (runEntries fs (initStates fs.length) es).1 j).sum
            = (slotRuns.map fun es =>
                (es.filter fun en => reaches fs j en.1).length).sum) := by
  have main : ∀ (fs : List FilterNode) (entries : List (Nat × Nat)),
      entries.Pairwise (fun a b => a.1 < b.1) →
      ∀ j, j < fs.length →
        accPlusRej (runEntries fs (initStates fs.length) entries).1 j
            = (runEntries fs (initStates fs.length) entries).2 j
          ∧ (runEntries fs (initStates fs.length) entries).2 j
            = (entries.filter fun en => reaches fs j en.1).length := by
    intro fs entries hpw j hj
    have hlen : (initStates fs.length).length = fs.length := by simp [initStates]
    have hlt : ∀ s ∈ initStates fs.length, ∀ en ∈ entries,
        s.fLastCheckedEntry < (en.1 : Int) := by
      intro s hs en _
      have hs' : s = initFilterSlotState := List.eq_of_mem_replicate hs
      subst hs'
      have := Int.natCast_nonneg en.1
      simp only [initFilterSlotState]
      omega
    obtain ⟨_, hacc, hcnt⟩ := runEntries_spec fs entries (initStates fs.length) hlen hlt hpw
    refine ⟨?_, hcnt j hj⟩
    rw [hacc j hj, hcnt j hj, accPlusRej_initStates]
    simp
  refine ⟨main, ?_⟩
  intro fs slotRuns hall j hj
  induction slotRuns with
  | nil => rfl
  | cons es l ihl =>
    have h1 := (main fs es (hall es (by simp)) j hj).1.trans
      (main fs es (hall es (by simp)) j hj).2
    simp only [List.map_cons, List.sum_cons, h1]
    rw [ihl fun es' hes' => hall es' (by simp [hes'])]

/-- C9 witness: two named filters (`even`, then `big` downstream) over the
per-slot runs `[0,1,2]` and `[3,4]`, each entry of the first slot consulted
by up to two actions: the counters match the predicate-invocation and
reached-row counts, per slot and summed over slots. -/
theorem c9_witness :
    (accPlusRej (runEntries [⟨fun e => decide (5 < e), "big"⟩, ⟨fun e => decide (e % 2 = 0), "even"⟩]
          (initStates 2) [(0, 1), (1, 0), (2, 1)]).1 0
        = (runEntries [⟨fun e => decide (5 < e), "big"⟩, ⟨fun e => decide (e % 2 = 0), "even"⟩]
          (initStates 2) [(0, 1), (1, 0), (2, 1)]).2 0
      ∧ (runEntries [⟨fun e => decide (5 < e), "big"⟩, ⟨fun e => decide (e % 2 = 0), "even"⟩]
          (initStates 2) [(0, 1), (1, 0), (2, 1)]).2 0
        = (([(0, 1), (1, 0), (2, 1)] : List (Nat × Nat)).filter fun en =>
            reaches [⟨fun e => decide (5 < e), "big"⟩, ⟨fun e => decide (e % 2 = 0), "even"⟩] 0 en.1).length)
    ∧ ((([[(0, 1), (1, 0), (2, 1)], [(3, 0), (4, 0)]] : List (List (Nat × Nat))).map fun es =>
          accPlusRej (runEntries [⟨fun e => decide (5 < e), "big"⟩, ⟨fun e => decide (e % 2 = 0), "even"⟩]
            (initStates 2) es).1 0).sum
        = (([[(0, 1), (1, 0), (2, 1)], [(3, 0), (4, 0)]] : List (List (Nat × Nat))).map fun es =>
            (es.filter fun en =>
              reaches [⟨fun e => decide (5 < e), "big"⟩, ⟨fun e => decide (e % 2 = 0), "even"⟩] 0 en.1).length).sum) := by
  constructor
  · exact c9_named_filter_counters.1
      [⟨fun e => decide (5 < e), "big"⟩, ⟨fun e => decide (e % 2 = 0), "even"⟩]
      [(0, 1), (1, 0), (2, 1)] (by decide) 0 (by decide)
  · exact c9_named_filter_counters.2
      [⟨fun e => decide (5 < e), "big"⟩, ⟨fun e => decide (e % 2 = 0), "even"⟩]
      [[(0, 1), (1, 0), (2, 1)], [(3, 0), (4, 0)]]
      (by intro es hes; fin_cases hes <;> decide) 0 (by decide)

/-- C4. For every temporary branch, slot and row: a request for an already
cached row returns the cached shared pointer without evaluating the
expression (first conjunct); a request for a new row evaluates the
expression once, stores it under a fresh shared allocation and returns it
(second conjunct); and any immediately following consumer of the same
(slot, row) receives the identical pointer — same address, same value —
with no re-evaluation (third conjunct). -/
theorem c4_derived_column_cache :
    ∀ (V : Type) (expression : Nat → V) (s : BranchSlotState V) (e : Nat),
      ((e : Int) = s.fLastCheckedEntry →
        branchGetValue expression s e = (s.fLastResultPtr, s, false))
      ∧ ((e : Int) ≠ s.fLastCheckedEntry →
        branchGetValue expression s e
          = (some (s.nextAddr, expression e),
             ⟨(e : Int), some (s.nextAddr, expression e), s.nextAddr + 1⟩, true))
      ∧ branchGetValue expression (branchGetValue expression s e).2.1 e
          = ((branchGetValue expression s e).1,
             (branchGetValue expression s e).2.1, false) := by
  intro V expression s e
  refine ⟨fun h => by simp [branchGetValue, h], fun h => by simp [branchGetValue, h], ?_⟩
  by_cases h : (e : Int) = s.fLastCheckedEntry
  · simp [branchGetValue, h]
  · simp [branchGetValue, h]

/-- C4 witness: the branch `y = 2 * x` at row 5 on a fresh slot: first
request evaluates and caches `(addr 0, 10)`, a second request returns the
identical pointer without re-evaluation. -/
theorem c4_witness :
    branchGetValue (fun e => 2 * (e : Int)) (initBranchSlotState Int) 5
        = (some (0, 10), ⟨5, some (0, 10), 1⟩, true)
      ∧ branchGetValue (fun e => 2 * (e : Int))
          (branchGetValue (fun e => 2 * (e : Int)) (initBranchSlotState Int) 5).2.1 5
        = ((branchGetValue (fun e => 2 * (e : Int)) (initBranchSlotState Int) 5).1,
           (branchGetValue (fun e => 2 * (e : Int)) (initBranchSlotState Int) 5).2.1, false) := by
  have h := c4_derived_column_cache Int (fun e => 2 * (e : Int)) (initBranchSlotState Int) 5
  refine ⟨?_, h.2.2⟩
  have h2 := h.2.1 (by decide)
  simpa [initBranchSlotState] using h2

/-- C1. Booking `Count`, `Reduce`, `Take`, `Min`, `Max`, `Mean` or
`Histo1D/2D/3D` is lazy: the call only books the action and registers the
result handle, never triggering the event loop (so no column is read and no
user callable is invoked by the booking); `ForeachSlot` books its action
and then calls `Run` inside the booking call itself, and `Foreach` forwards
to `ForeachSlot`. -/
theorem c1_lazy_booking_vs_instant_foreach :
    LazyBooking bookCount ∧ LazyBooking bookReduce ∧ LazyBooking bookTake
      ∧ LazyBooking bookMin ∧ LazyBooking bookMax ∧ LazyBooking bookMean
      ∧ LazyBooking bookHisto1D ∧ LazyBooking bookHisto2D ∧ LazyBooking bookHisto3D
      ∧ (∀ st : EngineState,
          (foreachSlot st).2 = [EngineEffect.bookAction, EngineEffect.runLoop]
            ∧ (foreachSlot st).1
              = { st with nBookedActions := st.nBookedActions + 1,
                          nRuns := st.nRuns + 1 })
      ∧ (∀ st : EngineState, foreach st = foreachSlot st) := by
  refine ⟨?_, ?_, ?_, ?_, ?_, ?_, ?_, ?_, ?_, fun st => ⟨rfl, rfl⟩, fun st => rfl⟩
  all_goals exact fun st =>
    ⟨rfl, by show EngineEffect.runLoop ∉ [EngineEffect.bookAction]; decide, rfl⟩

/-- C6 counterexample: with the main data frame reachable and no run
executed, `Report` merely warns that all reports are empty — it does not
fail with a `NotRun` error reaching the caller. -/
theorem c6_report_counterexample :
    reportTDF true false = .ok .warnedEmpty
      ∧ reportTDF true false ≠ .error .notRun := by
  refine ⟨rfl, ?_⟩
  intro h
  exact Except.noConfusion h

/-- C6 amended: calling `Report` on a reachable data frame before any run
does not raise an error: it prints the warning that the event loop has not
been run and all reports are empty (no statistics); after a run it prints
the stats; an unreachable data frame makes `Report` fail (engine gone). -/
theorem c6_report_before_run_warns :
    reportTDF true false = .ok .warnedEmpty
      ∧ reportTDF true true = .ok .printedStats
      ∧ reportTDF false false = .error .engineGone
      ∧ reportTDF false true = .error .engineGone :=
  ⟨rfl, rfl, rfl, rfl⟩

/-- C7. `Get` checks the readiness flag: when set it returns the aggregate
without touching the engine; when unset it triggers the event loop exactly
once via `TriggerRun`, after which the populated aggregate is returned and
the flag is set; when the engine has been destroyed before the first
dereference, `Get` fails with the engine-gone error instead of returning a
value. -/
theorem c7_get_ready_flag_engine_gone :
    ∀ p : ResultProxy,
      (p.fReadiness = true → proxyGet p = .ok (p.fObj, p, false))
      ∧ (∀ eng : EngineRunModel, p.fReadiness = false → p.fFirstData = some eng →
          proxyGet p = .ok (eng.computed, ⟨true, eng.computed, some eng⟩, true))
      ∧ (p.fReadiness = false → p.fFirstData = none →
          proxyGet p = .error .engineGone) := by
  intro p
  obtain ⟨fr, fo, fd⟩ := p
  refine ⟨fun h => ?_, fun eng h1 h2 => ?_, fun h1 h2 => ?_⟩
  · simp only at h; subst h; rfl
  · simp only at h1 h2; subst h1; subst h2; rfl
  · simp only at h1 h2; subst h1; subst h2; rfl

/-- C7 witness: a ready proxy returns its value without running; an unready
proxy with a live engine triggers the run and returns the computed value;
an unready proxy whose engine is gone fails. -/
theorem c7_witness :
    proxyGet ⟨true, 7, none⟩ = .ok (7, ⟨true, 7, none⟩, false)
      ∧ proxyGet ⟨false, 0, some ⟨42⟩⟩ = .ok (42, ⟨true, 42, some ⟨42⟩⟩, true)
      ∧ proxyGet ⟨false, 0, none⟩ = .error .engineGone :=
  ⟨(c7_get_ready_flag_engine_gone ⟨true, 7, none⟩).1 rfl,
   (c7_get_ready_flag_engine_gone ⟨false, 0, some ⟨42⟩⟩).2.1 ⟨42⟩ rfl rfl,
   (c7_get_ready_flag_engine_gone ⟨false, 0, none⟩).2.2 rfl rfl⟩

/-- C8. Branch-name resolution for a node of arity `k`: when the declared
list has exactly `k` non-empty entries it is used as given; otherwise the
default list truncated to its first `k` names is substituted; and when the
default list is shorter than `k`, booking fails at chain-building time with
the insufficient-defaults error. -/
theorem c8_branch_name_resolution :
    ∀ (defaultBranches bl : List String) (k : Nat),
      ((bl.filter fun s => !s.isEmpty).length = k →
        getBranchNames defaultBranches bl k = .ok bl)
      ∧ ((bl.filter fun s => !s.isEmpty).length ≠ k → k ≤ defaultBranches.length →
        getBranchNames defaultBranches bl k = .ok (defaultBranches.take k))
      ∧ ((bl.filter fun s => !s.isEmpty).length ≠ k → defaultBranches.length < k →
        getBranchNames defaultBranches bl k = .error .insufficientDefaults) := by
  intro defaultBranches bl k
  refine ⟨fun h => ?_, fun h hk => ?_, fun h hk => ?_⟩
  · simp only [getBranchNames]
    rw [if_pos h.symm]
  · simp only [getBranchNames, getDefaultBranchNames]
    rw [if_neg fun hh => h hh.symm, if_neg (by omega)]
  · simp only [getBranchNames, getDefaultBranchNames]
    rw [if_neg fun hh => h hh.symm, if_pos (by omega)]

/-- C8 witness: with defaults `["a", "b"]`: a list with exactly one
non-empty name for arity 1 is used as given; an all-empty list for arity 1
resolves to `["a"]`; arity 3 exceeds the defaults and fails. -/
theorem c8_witness :
    getBranchNames ["a", "b"] ["x", ""] 1 = .ok ["x", ""]
      ∧ getBranchNames ["a", "b"] ["", ""] 1 = .ok ["a"]
      ∧ getBranchNames ["a", "b"] ["", ""] 3 = .error .insufficientDefaults := by
  refine ⟨?_, ?_, ?_⟩
  · exact (c8_branch_name_resolution ["a", "b"] ["x", ""] 1).1 (by decide)
  · have h := (c8_branch_name_resolution ["a", "b"] ["", ""] 1).2.1 (by decide) (by decide)
    simpa using h
  · exact (c8_branch_name_resolution ["a", "b"] ["", ""] 3).2.2 (by decide) (by decide)

theorem foldl_min_self (l : List ℚ) (a : ℚ) (h : ∀ x ∈ l, x = a) : l.foldl min a = a := by
  induction l with
  | nil => rfl
  | cons x l ih =>
    have hx : x = a := h x (by simp)
    subst hx
    simp only [List.foldl_cons, min_self]
    exact ih fun y hy => h y (by simp [hy])

theorem foldl_max_self (l : List ℚ) (a : ℚ) (h : ∀ x ∈ l, x = a) : l.foldl max a = a := by
  induction l with
  | nil => rfl
  | cons x l ih =>
    have hx : x = a := h x (by simp)
    subst hx
    simp only [List.foldl_cons, max_self]
    exact ih fun y hy => h y (by simp [hy])

/-- C10. When zero rows reach the action in every slot, the published `Min`
is the untouched sentinel `std::numeric_limits<double>::max()` and the
published `Max` is the untouched sentinel
`std::numeric_limits<double>::min()`. -/
theorem c10_zero_rows_min_max_sentinels :
    ∀ slotValues : List (List ℚ),
      (∀ vs ∈ slotValues, vs = []) →
      minResult slotValues = dblMax ∧ maxResult slotValues = dblMin := by
  intro sv h
  constructor
  · unfold minResult
    refine foldl_min_self _ _ fun y hy => ?_
    obtain ⟨vs, hvs, rfl⟩ := List.mem_map.mp hy
    rw [h vs hvs]
    rfl
  · unfold maxResult
    refine foldl_max_self _ _ fun y hy => ?_
    obtain ⟨vs, hvs, rfl⟩ := List.mem_map.mp hy
    rw [h vs hvs]
    rfl

/-- C10 witness: one slot, zero rows: `Min` publishes the largest finite
double and `Max` publishes the smallest positive normal double. -/
theorem c10_witness :
    minResult [[]] = dblMax ∧ maxResult [[]] = dblMin :=
  c10_zero_rows_min_max_sentinels [[]] (by simp)

/-- C5 (code bug). One slot processing the single branch value `-5`: the
published `Max` is the sentinel `std::numeric_limits<double>::min()`
(`2^-1022`, a positive number), not the maximum `-5` of the processed
values — because `TDataFrameInterface::Max` (line 823) seeds the published
double with `min()` (smallest positive normal) instead of the most negative
double (`lowest()`), contradicting its own documentation "Return the
maximum of processed branch values". -/
theorem c5_max_all_negative_is_sentinel :
    maxResult [[(-5 : ℚ)]] = dblMin
      ∧ (-5 : ℚ) < dblMin ∧ (0 : ℚ) < dblMin := by
  have hpos : (0 : ℚ) < dblMin := by unfold dblMin; positivity
  have hlt : (-5 : ℚ) < dblMin := lt_trans (by norm_num) hpos
  refine ⟨?_, hlt, hpos⟩
  unfold maxResult
  simp only [List.map_cons, List.map_nil, List.foldl_cons, List.foldl_nil]
  rw [max_eq_left hlt.le, max_self]

end TDF
